import Mathlib

/-
Verification of the snake-puzzle generator (`server/snakeGenerator.ts`).

The source file contains two concatenated revisions of the generator; the
definitions below embed the later revision (the greedy solver with the
face-to-face constraint), which is the code the specification describes.

Modelling conventions:
* JS `Set<string>` objects keyed by `posKey(x, y) = "x,y"` are modelled as
  duplicate-free `List Position` values in insertion order (`posKey` is a
  bijection between positions and keys, and JS sets iterate in insertion
  order, re-adding a deleted key at the end).
* The optional random source (`SeededRandom` or `Math.random`) is modelled
  as an abstract stream `r : Nat → ℚ` of drawn values together with a
  counter `k` giving the index of the next draw; the seeded variant is the
  concrete stream `lcgStream seed`.  JS numbers are modelled as exact
  rationals (all LCG states are integers far below 2^53).
* A JS runtime exception (indexing an array out of bounds and then reading
  a field of `undefined`, possible only when a drawn value lies outside
  [0,1)) is modelled by `Option.none` at the outermost level; `null`
  results of the original functions are the inner `Option.none`.
* `while` loops whose iteration count is bounded by an explicit counter
  (`attempts < maxAttempts`, `attempts2 < maxSnakeAttempts`,
  `path.length < targetLen`) are written as structural recursion on the
  number of remaining iterations.
-/

/-- A grid position: integer pair (x, y); the `Position` type of
`shared/schema` as used by `server/snakeGenerator.ts`. -/
structure Position where
  x : Int
  y : Int
deriving DecidableEq

/-- Snake facing direction (the `Direction` type of `shared/schema`);
the JS `null` direction is `Option.none` at use sites. -/
inductive Direction where
  | up
  | down
  | left
  | right
deriving DecidableEq

/-- Result of `parseShape`: tile set plus dimensions. -/
structure ShapeData where
  tiles : List Position
  width : Nat
  height : Nat

/-- Scan one (padded) row of the ASCII mask: a `#` at column `x` of row `y`
becomes the tile `(x, y)`, in left-to-right order. -/
def parseRow : List Char → Int → Int → List Position
  | [], _, _ => []
  | c :: cs, x, y =>
      if c = '#' then ⟨x, y⟩ :: parseRow cs (x + 1) y else parseRow cs (x + 1) y

/-- Right-pad a row with blanks to the maximal row length
(`row.padEnd(width, ' ')` in the source; padding never adds tiles). -/
def padRow (w : Nat) (row : List Char) : List Char :=
  row ++ List.replicate (w - row.length) ' '

/-- JS `asciiMask.split(String.fromCharCode(10))` on the character list: split at each
newline, keeping empty segments (the empty text yields one empty row). -/
def splitOnNewline : List Char → List (List Char)
  | [] => [[]]
  | c :: cs =>
      if c = '\n' then [] :: splitOnNewline cs
      else
        match splitOnNewline cs with
        | [] => [[c]]
        | r :: rs => (c :: r) :: rs

/-- Scan the rows of the ASCII mask top to bottom, collecting tiles in
row-major (insertion) order, mirroring the `rows.forEach` of `parseShape`. -/
def parseRows (w : Nat) : List (List Char) → Int → List Position
  | [], _ => []
  | row :: rest, y => parseRow (padRow w row) 0 y ++ parseRows w rest (y + 1)

/-- `parseShape`: split the ASCII mask on newlines, compute the maximal row
length and collect the `#` cells as tiles. -/
def parseShape (asciiMask : String) : ShapeData :=
  let rows := splitOnNewline asciiMask.data
  let width := rows.foldr (fun rw m => max rw.length m) 0
  { tiles := parseRows width rows 0, width := width, height := rows.length }

/-- The four 4-adjacency offsets of a position, in the fixed enumeration
order `[+x, -x, +y, -y]` of the source's `directions` array. -/
def adjOffsets (pos : Position) : List Position :=
  [⟨pos.x + 1, pos.y⟩, ⟨pos.x - 1, pos.y⟩, ⟨pos.x, pos.y + 1⟩, ⟨pos.x, pos.y - 1⟩]

/-- 4-adjacency of two positions. -/
def isAdj (p q : Position) : Prop :=
  q ∈ adjOffsets p

instance (p q : Position) : Decidable (isAdj p q) :=
  inferInstanceAs (Decidable (q ∈ adjOffsets p))

/-- `neighbors`: the 4-neighbours of `pos` that are tiles of the shape, in
the fixed offset order. -/
def neighbors (pos : Position) (tiles : List Position) : List Position :=
  (adjOffsets pos).filter fun np => decide (np ∈ tiles)

/-- `countNeighbors`: degree of a position inside the full tile set
(the source takes the string key and parses it back; keys and positions
are identified here). -/
def countNeighbors (p : Position) (tiles : List Position) : Nat :=
  (neighbors p tiles).length

/-- One step of `SeededRandom`: `seed = (seed * 9301 + 49297) % 233280`.
JS `%` is truncated remainder (sign of the dividend), i.e. `Int.tmod`. -/
def lcgNext (s : Int) : Int :=
  Int.tmod (s * 9301 + 49297) 233280

/-- The internal state of `SeededRandom` after `n` calls to `next()`,
starting from the caller-supplied integer seed. -/
def lcgState (seed : Int) : Nat → Int
  | 0 => seed
  | n + 1 => lcgNext (lcgState seed n)

/-- The value stream of `SeededRandom`: the `n`-th (0-based) call of
`next()` returns `seed_(n+1) / 233280`. -/
def lcgStream (seed : Int) (n : Nat) : ℚ :=
  ((lcgState seed (n + 1) : Int) : ℚ) / 233280

/-- `getSnakeDirection`: `null` for snakes of length < 2; otherwise derived
from head and first body segment, pointing away from the body. -/
def getSnakeDirection (snake : List Position) : Option Direction :=
  match snake with
  | head :: next :: _ =>
      if head.x < next.x then some Direction.left
      else if next.x < head.x then some Direction.right
      else if head.y < next.y then some Direction.up
      else some Direction.down
  | _ => none

/-- `snakesFaceEachOther`: true iff the two heads confront each other along
a shared row (opposite horizontal directions, each oriented toward the
other) or a shared column (opposite vertical directions, likewise); false
whenever either snake is empty or either direction is `null`. -/
def snakesFaceEachOther (snake1 : List Position) (dir1 : Option Direction)
    (snake2 : List Position) (dir2 : Option Direction) : Bool :=
  match snake1, snake2, dir1, dir2 with
  | h1 :: _, h2 :: _, some d1, some d2 =>
      (decide (h1.y = h2.y) &&
        ((decide (d1 = Direction.left) && decide (d2 = Direction.right) ||
          decide (d1 = Direction.right) && decide (d2 = Direction.left)) &&
         (decide (d1 = Direction.left) && decide (h2.x < h1.x) ||
          decide (d1 = Direction.right) && decide (h1.x < h2.x)))) ||
      (decide (h1.x = h2.x) &&
        ((decide (d1 = Direction.up) && decide (d2 = Direction.down) ||
          decide (d1 = Direction.down) && decide (d2 = Direction.up)) &&
         (decide (d1 = Direction.up) && decide (h2.y < h1.y) ||
          decide (d1 = Direction.down) && decide (h1.y < h2.y))))
  | _, _, _, _ => false

/-- The extension loop of `generateGreedySnake` (`while path.length <
targetLen`): repeatedly append a randomly chosen eligible neighbour of the
last position.  `fuel` is the remaining number of allowed extensions
(`targetLen - path.length`); a drawn value outside [0,1) makes the chosen
index fall outside the candidate array, which in JS dereferences
`undefined` and throws — modelled by `none`. -/
def growPath (tiles usedGlobal : List Position) (r : Nat → ℚ) :
    Nat → List Position → List Position → Nat → Option (List Position × Nat)
  | 0, path, _, k => some (path, k)
  | fuel + 1, path, usedLocal, k =>
      match path.getLast? with
      | none => none
      | some current =>
          let candidates := (neighbors current tiles).filter
            fun n => decide (n ∉ usedGlobal) && decide (n ∉ usedLocal)
          if candidates.isEmpty then some (path, k)
          else
            let idx : Int := ⌊r k * (candidates.length : ℚ)⌋
            if h : 0 ≤ idx ∧ idx.toNat < candidates.length then
              growPath tiles usedGlobal r fuel
                (path ++ [candidates.get ⟨idx.toNat, h.2⟩])
                (candidates.get ⟨idx.toNat, h.2⟩ :: usedLocal) (k + 1)
            else none

/-- `generateGreedySnake`: draw a target length in `[minLen, maxLen]`
(when the stream obeys the [0,1) contract), grow a simple path greedily,
and return it iff it reaches `minLen`.  Outer `Option` = JS exception,
inner `Option` = the `null` result; the returned `Nat` is the index of
the next unconsumed random draw. -/
def generateGreedySnake (start : Position) (tiles usedGlobal : List Position)
    (minLen maxLen : Int) (r : Nat → ℚ) (k : Nat) :
    Option (Option (List Position) × Nat) :=
  let targetLen : Int := minLen + ⌊r k * ((maxLen - minLen + 1 : Int) : ℚ)⌋
  match growPath tiles usedGlobal r (targetLen - 1).toNat [start] [start] (k + 1) with
  | none => none
  | some (path, kNew) =>
      some (if minLen ≤ (path.length : Int) then some path else none, kNew)

/-- The inner retry loop of `solveWithGreedy` (`while attempts2 <
maxSnakeAttempts && !snake`): up to `t` tries of `generateGreedySnake`
from the fixed start, discarding candidates that face an already placed
snake. -/
def tryFindSnake (tiles usedGlobal : List Position) (minLen maxLen : Int)
    (r : Nat → ℚ) (placed : List (List Position × Option Direction))
    (start : Position) :
    Nat → Nat → Option (Option (List Position) × Nat)
  | 0, k => some (none, k)
  | t + 1, k =>
      match generateGreedySnake start tiles usedGlobal minLen maxLen r k with
      | none => none
      | some (none, kNew) =>
          tryFindSnake tiles usedGlobal minLen maxLen r placed start t kNew
      | some (some cand, kNew) =>
          if placed.any (fun sd =>
              snakesFaceEachOther cand (getSnakeDirection cand) sd.1 sd.2) then
            tryFindSnake tiles usedGlobal minLen maxLen r placed start t kNew
          else some (some cand, kNew)

/-- The start-cell ordering of `solveWithGreedy`: JS `Array.sort` with the
comparator `countNeighbors a - countNeighbors b` is a stable ascending
sort by degree, i.e. insertion sort with `≤` on degrees. -/
def sortByDeg (tiles : List Position) (l : List Position) : List Position :=
  List.insertionSort
    (fun a b => countNeighbors a tiles ≤ countNeighbors b tiles) l

/-- The outer loop of `solveWithGreedy` (`while unused.size > 0 && attempts
< maxAttempts`).  `fuel` is the number of remaining iterations
(`maxAttempts - attempts`).  `placed` is the snake stack, most recent
first (the JS arrays push/pop at the end); on success the stack is
reversed back into push order.  Sorting an empty `unused` cannot happen
(guarded by the emptiness test), and the impossible `[]` branch mirrors
the JS dereference of `unusedArray[0] = undefined`. -/
def solveLoop (tiles : List Position) (minLen maxLen : Int) (r : Nat → ℚ) :
    Nat → List Position → List (List Position × Option Direction) → Nat →
    Option (Option (List (List Position)) × Nat)
  | 0, unused, placed, k =>
      if unused.isEmpty then some (some ((placed.map Prod.fst).reverse), k)
      else some (none, k)
  | fuel + 1, unused, placed, k =>
      if unused.isEmpty then some (some ((placed.map Prod.fst).reverse), k)
      else
        match sortByDeg tiles unused with
        | [] => none
        | start :: _ =>
            let usedGlobal := tiles.filter fun p => decide (p ∉ unused)
            match tryFindSnake tiles usedGlobal minLen maxLen r placed start 10 k with
            | none => none
            | some (none, kNew) =>
                match placed with
                | [] => some (none, kNew)
                | (last, _) :: rest =>
                    solveLoop tiles minLen maxLen r fuel (unused ++ last) rest kNew
            | some (some snake, kNew) =>
                solveLoop tiles minLen maxLen r fuel
                  (snake.foldl (fun u p => u.erase p) unused)
                  ((snake, getSnakeDirection snake) :: placed) kNew

/-- `solveWithGreedy`: one full solver attempt over the tile set. -/
def solveWithGreedy (tiles : List Position) (minLen maxLen : Int)
    (r : Nat → ℚ) (k : Nat) (maxAttempts : Nat) :
    Option (Option (List (List Position)) × Nat) :=
  solveLoop tiles minLen maxLen r maxAttempts tiles [] k

/-- The retry loop of `generateSnakesForShape` (`for attempt = 1 ..
maxAttempts`), threading the shared random stream across attempts.
`attempt` is the 1-based number of the next attempt, `fuel` the number of
attempts still allowed; the solver is invoked with its caller-side
iteration cap 100. -/
def genLoop (tiles : List Position) (minLen maxLen : Int) (r : Nat → ℚ)
    (maxAttempts : Nat) :
    Nat → Nat → Nat → Option (Option (List (List Position)) × Nat)
  | 0, _, _ => some (none, maxAttempts)
  | fuel + 1, attempt, k =>
      match solveWithGreedy tiles minLen maxLen r k 100 with
      | none => none
      | some (some snakes, _) => some (some snakes, attempt)
      | some (none, kNew) => genLoop tiles minLen maxLen r maxAttempts fuel (attempt + 1) kNew

/-- `generateSnakesForShape`: parse the shape once, then run the solver up
to `maxAttempts` (default 20 in the source) times over the shared random
stream; returns the pair (snakes-or-null, attempts). -/
def generateSnakesForShape (asciiShape : String) (minSnakeLen maxSnakeLen : Int)
    (r : Nat → ℚ) (maxAttempts : Nat) :
    Option (Option (List (List Position)) × Nat) :=
  genLoop (parseShape asciiShape).tiles minSnakeLen maxSnakeLen r maxAttempts
    maxAttempts 1 0

/-- The random-stream position reached after `i` consecutive failed solver
attempts: `solveCalls … i = some k` states that the first `i` attempts all
ran to a `null` result and left the stream at index `k`.  Used to phrase
the retry-accounting claim. -/
def solveCalls (tiles : List Position) (minLen maxLen : Int) (r : Nat → ℚ) :
    Nat → Option Nat
  | 0 => some 0
  | i + 1 =>
      match solveCalls tiles minLen maxLen r i with
      | none => none
      | some k =>
          match solveWithGreedy tiles minLen maxLen r k 100 with
          | some (none, kNew) => some kNew
          | _ => none

/-- `getLookingAtPosition`: the cell one step from the head in the facing
direction, or `null` when there is no direction. -/
def getLookingAtPosition (head : Position) (direction : Option Direction) :
    Option Position :=
  match direction with
  | none => none
  | some Direction.up => some ⟨head.x, head.y - 1⟩
  | some Direction.down => some ⟨head.x, head.y + 1⟩
  | some Direction.left => some ⟨head.x - 1, head.y⟩
  | some Direction.right => some ⟨head.x + 1, head.y⟩

/-- The JSON output shape (`SnakeShape` of `shared/schema`). -/
structure SnakeShape where
  type : String
  startPos : Position
  direction : Option Direction
  lookingAt : Option Position
  positions : List Position
deriving DecidableEq

/-- `snakesToJSON`: label each snake sequentially, attach its direction and
looking-at cell, and a constant `startPos` of (0,0).  (For an empty snake
the JS `head` is `undefined` but is never dereferenced because the
direction is `null`; the default `⟨0,0⟩` head is likewise never used.) -/
def snakesToJSON (snakes : List (List Position)) : List SnakeShape :=
  ((List.range snakes.length).zip snakes).map fun s =>
    { type := "Snake" ++ toString (s.1 + 1)
      startPos := ⟨0, 0⟩
      direction := getSnakeDirection s.2
      lookingAt := getLookingAtPosition (s.2.headD ⟨0, 0⟩) (getSnakeDirection s.2)
      positions := s.2 }

/-- Executable test that consecutive positions of a list are 4-adjacent
(equivalent to `List.Chain' isAdj`, see `chainAdjB_iff`). -/
def chainAdjB : List Position → Bool
  | [] => true
  | [_] => true
  | p :: q :: rest => decide (isAdj p q) && chainAdjB (q :: rest)

/-- Modelled from the spec (§4.5 `enumerate`): the paths the spec's path
enumerator must produce from `start` — simple paths starting at `start`,
staying within shape tiles, avoiding `globallyUsed` and repetitions, with
length between `minLen` and `maxLen` inclusive.  This definition follows
the spec's words and exists only to compare that contract against the
code's `generateGreedySnake` (claim C4). -/
def specValidPath (start : Position) (tiles globallyUsed : List Position)
    (minLen maxLen : Int) (p : List Position) : Bool :=
  decide (p.head? = some start) && decide p.Nodup &&
    chainAdjB p &&
    decide (∀ q ∈ p, q ∈ tiles ∧ q ∉ globallyUsed) &&
    decide (minLen ≤ (p.length : Int)) && decide ((p.length : Int) ≤ maxLen)

/-- The solver-state invariant maintained by the outer loop of
`solveWithGreedy`: the unused set is duplicate-free and inside the shape,
the placed snakes are well-formed simple paths inside the shape, placed
tiles and unused tiles partition the shape, stored directions match
`getSnakeDirection`, and no two placed snakes face each other. -/
structure SolveInv (tiles : List Position) (minLen maxLen : Int)
    (unused : List Position)
    (placed : List (List Position × Option Direction)) : Prop where
  unused_nodup : unused.Nodup
  unused_sub : ∀ p ∈ unused, p ∈ tiles
  placed_sub : ∀ sd ∈ placed, ∀ p ∈ sd.1, p ∈ tiles
  cover : ∀ p ∈ tiles, p ∈ unused ∨ ∃ sd ∈ placed, p ∈ sd.1
  disj : ∀ sd ∈ placed, ∀ p ∈ sd.1, p ∉ unused
  pair_disj : placed.Pairwise (fun a b => ∀ p ∈ a.1, p ∉ b.1)
  snake_wf : ∀ sd ∈ placed, sd.1.Nodup ∧ sd.1 ≠ [] ∧ List.Chain' isAdj sd.1 ∧
      minLen ≤ (sd.1.length : Int) ∧ (sd.1.length : Int) ≤ maxLen
  dir_eq : ∀ sd ∈ placed, sd.2 = getSnakeDirection sd.1
  noface : placed.Pairwise (fun a b =>
      snakesFaceEachOther a.1 a.2 b.1 b.2 = false ∧
      snakesFaceEachOther b.1 b.2 a.1 a.2 = false)

/-! ### Basic facts about the seeded random stream -/

/-- One LCG step from a nonnegative state stays in `[0, 233280)`. -/
theorem lcgNext_bounds {s : Int} (hs : 0 ≤ s) :
    0 ≤ lcgNext s ∧ lcgNext s < 233280 := by
  have h0 : (0 : Int) ≤ s * 9301 + 49297 := by positivity
  have h2 : (0 : Int) ≤ 233280 := by norm_num
  unfold lcgNext
  rw [Int.tmod_eq_emod h0 h2]
  constructor
  · exact Int.emod_nonneg _ (by norm_num)
  · exact Int.emod_lt_of_pos _ (by norm_num)

/-- All states reached from a nonnegative seed are nonnegative. -/
theorem lcgState_nonneg {seed : Int} (hseed : 0 ≤ seed) (n : Nat) :
    0 ≤ lcgState seed n := by
  induction n with
  | zero => exact hseed
  | succ n ih => exact (lcgNext_bounds ih).1

/-- Helper shared by several claims: with a nonnegative seed, every value of
the seeded stream lies in `[0, 1)`. -/
theorem lcgStream_bounds {seed : Int} (hseed : 0 ≤ seed) (n : Nat) :
    0 ≤ lcgStream seed n ∧ lcgStream seed n < 1 := by
  have h := lcgNext_bounds (lcgState_nonneg hseed n)
  unfold lcgStream
  have h1 : (0 : ℚ) ≤ ((lcgState seed (n + 1) : Int) : ℚ) := by
    exact_mod_cast (show (0:Int) ≤ lcgState seed (n+1) from h.1)
  have h2 : ((lcgState seed (n + 1) : Int) : ℚ) < 233280 := by
    exact_mod_cast (show lcgState seed (n+1) < (233280:Int) from h.2)
  constructor
  · positivity
  · rw [div_lt_one (by norm_num)]
    exact h2

/-! ### Shape parsing: the tile list is duplicate-free -/

theorem parseRow_mem {cs : List Char} {x y : Int} {p : Position}
    (hp : p ∈ parseRow cs x y) : p.y = y ∧ x ≤ p.x := by
  induction cs generalizing x with
  | nil => simp [parseRow] at hp
  | cons c cs ih =>
      by_cases hc : c = '#'
      · simp only [parseRow, if_pos hc, List.mem_cons] at hp
        rcases hp with rfl | hp
        · exact ⟨rfl, le_refl _⟩
        · obtain ⟨h1, h2⟩ := ih hp
          exact ⟨h1, by omega⟩
      · simp only [parseRow, if_neg hc] at hp
        obtain ⟨h1, h2⟩ := ih hp
        exact ⟨h1, by omega⟩

theorem parseRow_nodup (cs : List Char) (x y : Int) :
    (parseRow cs x y).Nodup := by
  induction cs generalizing x with
  | nil => simp [parseRow]
  | cons c cs ih =>
      by_cases hc : c = '#'
      · simp only [parseRow, if_pos hc]
        refine List.nodup_cons.mpr ⟨fun hmem => ?_, ih _⟩
        have := (parseRow_mem hmem).2
        simp at this
      · simp only [parseRow, if_neg hc]
        exact ih _

theorem parseRows_mem {w : Nat} {rows : List (List Char)} {y : Int}
    {p : Position} (hp : p ∈ parseRows w rows y) : y ≤ p.y := by
  induction rows generalizing y with
  | nil => simp [parseRows] at hp
  | cons row rest ih =>
      simp only [parseRows, List.mem_append] at hp
      rcases hp with hp | hp
      · exact le_of_eq (parseRow_mem hp).1.symm
      · have := ih hp
        omega

theorem parseRows_nodup (w : Nat) (rows : List (List Char)) (y : Int) :
    (parseRows w rows y).Nodup := by
  induction rows generalizing y with
  | nil => simp [parseRows]
  | cons row rest ih =>
      simp only [parseRows]
      refine List.Nodup.append (parseRow_nodup _ _ _) (ih _) ?_
      intro p hp1 hp2
      have h1 := (parseRow_mem hp1).1
      have h2 := parseRows_mem hp2
      omega

/-- The parsed tile list never repeats a position. -/
theorem parseShape_tiles_nodup (ascii : String) :
    (parseShape ascii).tiles.Nodup := by
  unfold parseShape
  exact parseRows_nodup _ _ _

/-! ### Neighbours -/

theorem mem_neighbors {pos q : Position} {tiles : List Position} :
    q ∈ neighbors pos tiles ↔ isAdj pos q ∧ q ∈ tiles := by
  simp [neighbors, isAdj, List.mem_filter]

/-! ### The stable degree sort -/

theorem mem_sortByDeg {tiles l : List Position} {p : Position} :
    p ∈ sortByDeg tiles l ↔ p ∈ l :=
  (List.perm_insertionSort _ l).mem_iff

theorem sortByDeg_length (tiles l : List Position) :
    (sortByDeg tiles l).length = l.length :=
  (List.perm_insertionSort _ l).length_eq

theorem sortByDeg_sorted (tiles l : List Position) :
    List.Sorted (fun a b => countNeighbors a tiles ≤ countNeighbors b tiles)
      (sortByDeg tiles l) := by
  haveI : IsTotal Position (fun a b => countNeighbors a tiles ≤ countNeighbors b tiles) :=
    ⟨fun a b => Nat.le_total _ _⟩
  haveI : IsTrans Position (fun a b => countNeighbors a tiles ≤ countNeighbors b tiles) :=
    ⟨fun _ _ _ => Nat.le_trans⟩
  exact List.sorted_insertionSort _ l

/-! ### Removing a snake's tiles from the unused set -/

theorem foldl_erase_eq_diff (unused snake : List Position) :
    snake.foldl (fun u p => u.erase p) unused = unused.diff snake :=
  (List.diff_eq_foldl unused snake).symm

/-! ### Symmetry of the facing predicate -/

theorem snakesFaceEachOther_symm (s1 s2 : List Position)
    (d1 d2 : Option Direction) :
    snakesFaceEachOther s1 d1 s2 d2 = snakesFaceEachOther s2 d2 s1 d1 := by
  cases s1 with
  | nil => cases s2 <;> cases d1 <;> cases d2 <;> rfl
  | cons h1 t1 =>
      cases s2 with
      | nil => cases d1 <;> cases d2 <;> rfl
      | cons h2 t2 =>
          cases d1 with
          | none => cases d2 <;> rfl
          | some x1 =>
              cases d2 with
              | none => rfl
              | some x2 =>
                  cases x1 <;> cases x2 <;>
                    simp [snakesFaceEachOther, eq_comm]

/-! ### Soundness of the path-growing loop -/

theorem growPath_spec {tiles usedGlobal : List Position} {r : Nat → ℚ} :
    ∀ {fuel : Nat} {path usedLocal : List Position} {k : Nat}
      {path2 : List Position} {k2 : Nat},
      growPath tiles usedGlobal r fuel path usedLocal k = some (path2, k2) →
      (∀ p, p ∈ usedLocal ↔ p ∈ path) → path ≠ [] → path.Nodup →
      List.Chain' isAdj path →
      (∃ ext, path2 = path ++ ext) ∧
      (∀ p ∈ path2, p ∈ path ∨ (p ∈ tiles ∧ p ∉ usedGlobal)) ∧
      path2.Nodup ∧ List.Chain' isAdj path2 ∧
      path2.length ≤ path.length + fuel := by
  intro fuel
  induction fuel with
  | zero =>
      intro path usedLocal k path2 k2 heq hul hne hnd hch
      simp only [growPath, Option.some.injEq, Prod.mk.injEq] at heq
      obtain ⟨rfl, rfl⟩ := heq
      exact ⟨⟨[], by simp⟩, fun p hp => Or.inl hp, hnd, hch, by omega⟩
  | succ fuel ih =>
      intro path usedLocal k path2 k2 heq hul hne hnd hch
      rw [growPath, List.getLast?_eq_getLast path hne] at heq
      dsimp only at heq
      set current := path.getLast hne with hcur
      set candidates := (neighbors current tiles).filter
        (fun n => decide (n ∉ usedGlobal) && decide (n ∉ usedLocal)) with hcand
      split at heq
      case isTrue hemp =>
        simp only [Option.some.injEq, Prod.mk.injEq] at heq
        obtain ⟨rfl, rfl⟩ := heq
        exact ⟨⟨[], by simp⟩, fun p hp => Or.inl hp, hnd, hch, by omega⟩
      case isFalse hemp =>
        split at heq
        case isFalse h => exact absurd heq (by simp)
        case isTrue h =>
          have hmemc :
              candidates.get ⟨(⌊r k * (candidates.length : ℚ)⌋).toNat, h.2⟩ ∈
                candidates := List.get_mem _ _ _
          revert heq hmemc
          generalize candidates.get ⟨(⌊r k * (candidates.length : ℚ)⌋).toNat, h.2⟩ = nxt
          intro heq hmemc
          rw [hcand, List.mem_filter] at hmemc
          obtain ⟨hnb, hflt⟩ := hmemc
          rw [Bool.and_eq_true, decide_eq_true_eq, decide_eq_true_eq] at hflt
          have htile : nxt ∈ tiles := (mem_neighbors.mp hnb).2
          have hadj : isAdj current nxt := (mem_neighbors.mp hnb).1
          have hnotpath : nxt ∉ path := fun hc => hflt.2 ((hul nxt).mpr hc)
          have hul2 : ∀ p, p ∈ nxt :: usedLocal ↔ p ∈ path ++ [nxt] := by
            intro p
            simp [hul p]
            tauto
          have hne2 : path ++ [nxt] ≠ [] := by simp
          have hnd2 : (path ++ [nxt]).Nodup := by
            rw [List.nodup_append]
            refine ⟨hnd, List.nodup_singleton _, ?_⟩
            intro a ha hb
            rw [List.mem_singleton] at hb
            subst hb
            exact hnotpath ha
          have hch2 : List.Chain' isAdj (path ++ [nxt]) := by
            rw [List.chain'_append]
            refine ⟨hch, List.chain'_singleton _, ?_⟩
            intro x hx y hy
            rw [List.getLast?_eq_getLast path hne, Option.mem_some_iff] at hx
            simp only [List.head?_cons, Option.mem_some_iff] at hy
            subst hx
            subst hy
            exact hadj
          obtain ⟨⟨ext, hext⟩, hmem, hnd3, hch3, hlen⟩ :=
            ih heq hul2 hne2 hnd2 hch2
          refine ⟨⟨nxt :: ext, by simpa using hext⟩, ?_, hnd3, hch3, ?_⟩
          · intro p hp
            rcases hmem p hp with hin | hout
            · rcases List.mem_append.mp hin with hin | hin
              · exact Or.inl hin
              · rw [List.mem_singleton] at hin
                subst hin
                exact Or.inr ⟨htile, hflt.1⟩
            · exact Or.inr hout
          · simp only [List.length_append, List.length_cons,
              List.length_nil] at hlen ⊢
            omega

/-! ### Soundness of a single greedy snake -/

theorem generateGreedySnake_spec {start : Position}
    {tiles usedGlobal : List Position} {minLen maxLen : Int} {r : Nat → ℚ}
    {k : Nat} {snake : List Position} {k2 : Nat}
    (heq : generateGreedySnake start tiles usedGlobal minLen maxLen r k =
      some (some snake, k2)) :
    (∃ ext, snake = start :: ext) ∧
    (∀ p ∈ snake, p = start ∨ (p ∈ tiles ∧ p ∉ usedGlobal)) ∧
    snake.Nodup ∧ List.Chain' isAdj snake ∧
    minLen ≤ (snake.length : Int) ∧
    snake.length ≤ 1 + (minLen + ⌊r k * ((maxLen - minLen + 1 : Int) : ℚ)⌋ - 1).toNat := by
  unfold generateGreedySnake at heq
  dsimp only at heq
  set targetLen : Int := minLen + ⌊r k * ((maxLen - minLen + 1 : Int) : ℚ)⌋ with htl
  cases hg : growPath tiles usedGlobal r (targetLen - 1).toNat [start] [start] (k + 1) with
  | none => rw [hg] at heq; exact absurd heq (by simp)
  | some res =>
      obtain ⟨path, kNew⟩ := res
      rw [hg] at heq
      dsimp only at heq
      by_cases hlen : minLen ≤ (path.length : Int)
      · rw [if_pos hlen] at heq
        simp only [Option.some.injEq, Prod.mk.injEq] at heq
        obtain ⟨heq1, rfl⟩ := heq
        subst heq1
        obtain ⟨⟨ext, hext⟩, hmem, hnd, hch, hlen2⟩ :=
          growPath_spec hg (fun p => Iff.rfl) (by simp) (by simp) (by simp)
        refine ⟨⟨ext, by simpa using hext⟩, ?_, hnd, hch, hlen, ?_⟩
        · intro p hp
          rcases hmem p hp with hin | hout
          · exact Or.inl (List.mem_singleton.mp hin)
          · exact Or.inr hout
        · simpa using hlen2
      · rw [if_neg hlen] at heq
        simp only [Option.some.injEq, Prod.mk.injEq] at heq
        exact absurd heq.1 (by simp)

theorem generateGreedySnake_len_le {start : Position}
    {tiles usedGlobal : List Position} {minLen maxLen : Int} {r : Nat → ℚ}
    {k : Nat} {snake : List Position} {k2 : Nat}
    (hr1 : r k < 1) (hmin : 1 ≤ minLen) (hmax : minLen ≤ maxLen)
    (heq : generateGreedySnake start tiles usedGlobal minLen maxLen r k =
      some (some snake, k2)) :
    (snake.length : Int) ≤ maxLen := by
  obtain ⟨-, -, -, -, -, hub⟩ := generateGreedySnake_spec heq
  have hspan : (0 : Int) < maxLen - minLen + 1 := by omega
  have hspanq : (0 : ℚ) < ((maxLen - minLen + 1 : Int) : ℚ) := by
    exact_mod_cast hspan
  have hmul : r k * ((maxLen - minLen + 1 : Int) : ℚ) <
      ((maxLen - minLen + 1 : Int) : ℚ) :=
    mul_lt_of_lt_one_left hspanq hr1
  have hfl : ⌊r k * ((maxLen - minLen + 1 : Int) : ℚ)⌋ < maxLen - minLen + 1 :=
    Int.floor_lt.mpr hmul
  omega

/-! ### The inner retry loop -/

theorem tryFindSnake_spec {tiles usedGlobal : List Position}
    {minLen maxLen : Int} {r : Nat → ℚ}
    {placed : List (List Position × Option Direction)} {start : Position} :
    ∀ {t k : Nat} {snake : List Position} {k2 : Nat},
      tryFindSnake tiles usedGlobal minLen maxLen r placed start t k =
        some (some snake, k2) →
      (∃ k0 k1, generateGreedySnake start tiles usedGlobal minLen maxLen r k0 =
        some (some snake, k1)) ∧
      ∀ sd ∈ placed,
        snakesFaceEachOther snake (getSnakeDirection snake) sd.1 sd.2 = false := by
  intro t
  induction t with
  | zero =>
      intro k snake k2 heq
      exact absurd heq (by simp [tryFindSnake])
  | succ t ih =>
      intro k snake k2 heq
      rw [tryFindSnake] at heq
      cases hgen : generateGreedySnake start tiles usedGlobal minLen maxLen r k with
      | none => rw [hgen] at heq; exact absurd heq (by simp)
      | some res =>
          obtain ⟨cand?, kNew⟩ := res
          rw [hgen] at heq
          cases cand? with
          | none => exact ih heq
          | some cand =>
              dsimp only at heq
              by_cases hany : (placed.any fun sd =>
                  snakesFaceEachOther cand (getSnakeDirection cand) sd.1 sd.2) = true
              · rw [if_pos hany] at heq
                exact ih heq
              · rw [if_neg hany] at heq
                simp only [Option.some.injEq, Prod.mk.injEq] at heq
                obtain ⟨heq1, rfl⟩ := heq
                subst heq1
                refine ⟨⟨k, kNew, hgen⟩, ?_⟩
                rw [Bool.not_eq_true, List.any_eq_false] at hany
                intro sd hsd
                have := hany sd hsd
                simpa using this

/-! ### Preservation of the solver invariant -/

theorem SolveInv.place {tiles : List Position} {minLen maxLen : Int}
    {unused : List Position} {placed : List (List Position × Option Direction)}
    {snake : List Position}
    (inv : SolveInv tiles minLen maxLen unused placed)
    (hsub : ∀ p ∈ snake, p ∈ unused)
    (hnd : snake.Nodup) (hne : snake ≠ []) (hch : List.Chain' isAdj snake)
    (hlen1 : minLen ≤ (snake.length : Int))
    (hlen2 : (snake.length : Int) ≤ maxLen)
    (hface : ∀ sd ∈ placed,
      snakesFaceEachOther snake (getSnakeDirection snake) sd.1 sd.2 = false) :
    SolveInv tiles minLen maxLen (unused.diff snake)
      ((snake, getSnakeDirection snake) :: placed) := by
  have hdm : ∀ q : Position, q ∈ unused.diff snake ↔ q ∈ unused ∧ q ∉ snake :=
    fun q => inv.unused_nodup.mem_diff_iff
  refine
    { unused_nodup := inv.unused_nodup.diff
      unused_sub := ?_
      placed_sub := ?_
      cover := ?_
      disj := ?_
      pair_disj := ?_
      snake_wf := ?_
      dir_eq := ?_
      noface := ?_ }
  · intro p hp
    exact inv.unused_sub p ((hdm p).mp hp).1
  · intro sd hsd p hp
    rcases List.mem_cons.mp hsd with rfl | hsd
    · exact inv.unused_sub p (hsub p hp)
    · exact inv.placed_sub sd hsd p hp
  · intro p hp
    rcases inv.cover p hp with hu | ⟨sd, hsd, hpsd⟩
    · by_cases hps : p ∈ snake
      · exact Or.inr ⟨(snake, getSnakeDirection snake), List.mem_cons_self _ _, hps⟩
      · exact Or.inl ((hdm p).mpr ⟨hu, hps⟩)
    · exact Or.inr ⟨sd, List.mem_cons_of_mem _ hsd, hpsd⟩
  · intro sd hsd p hp hpd
    rcases List.mem_cons.mp hsd with rfl | hsd
    · exact ((hdm p).mp hpd).2 hp
    · exact inv.disj sd hsd p hp ((hdm p).mp hpd).1
  · rw [List.pairwise_cons]
    refine ⟨?_, inv.pair_disj⟩
    intro sd hsd p hp
    intro hpc
    exact inv.disj sd hsd p hpc (hsub p hp)
  · intro sd hsd
    rcases List.mem_cons.mp hsd with rfl | hsd
    · exact ⟨hnd, hne, hch, hlen1, hlen2⟩
    · exact inv.snake_wf sd hsd
  · intro sd hsd
    rcases List.mem_cons.mp hsd with rfl | hsd
    · rfl
    · exact inv.dir_eq sd hsd
  · rw [List.pairwise_cons]
    refine ⟨?_, inv.noface⟩
    intro sd hsd
    refine ⟨hface sd hsd, ?_⟩
    rw [snakesFaceEachOther_symm]
    exact hface sd hsd

theorem SolveInv.backtrack {tiles : List Position} {minLen maxLen : Int}
    {unused : List Position} {last : List Position} {d : Option Direction}
    {rest : List (List Position × Option Direction)}
    (inv : SolveInv tiles minLen maxLen unused ((last, d) :: rest)) :
    SolveInv tiles minLen maxLen (unused ++ last) rest := by
  have hlast_mem : (last, d) ∈ (last, d) :: rest := List.mem_cons_self _ _
  refine
    { unused_nodup := ?_
      unused_sub := ?_
      placed_sub := ?_
      cover := ?_
      disj := ?_
      pair_disj := ?_
      snake_wf := ?_
      dir_eq := ?_
      noface := ?_ }
  · rw [List.nodup_append]
    refine ⟨inv.unused_nodup, (inv.snake_wf _ hlast_mem).1, ?_⟩
    intro a ha hb
    exact inv.disj _ hlast_mem a hb ha
  · intro p hp
    rcases List.mem_append.mp hp with hp | hp
    · exact inv.unused_sub p hp
    · exact inv.placed_sub _ hlast_mem p hp
  · intro sd hsd p hp
    exact inv.placed_sub sd (List.mem_cons_of_mem _ hsd) p hp
  · intro p hp
    rcases inv.cover p hp with hu | ⟨sd, hsd, hpsd⟩
    · exact Or.inl (List.mem_append.mpr (Or.inl hu))
    · rcases List.mem_cons.mp hsd with rfl | hsd
      · exact Or.inl (List.mem_append.mpr (Or.inr hpsd))
      · exact Or.inr ⟨sd, hsd, hpsd⟩
  · intro sd hsd p hp hpd
    rcases List.mem_append.mp hpd with hpd | hpd
    · exact inv.disj sd (List.mem_cons_of_mem _ hsd) p hp hpd
    · have hrel := List.rel_of_pairwise_cons inv.pair_disj hsd
      exact hrel p hpd hp
  · exact (List.pairwise_cons.mp inv.pair_disj).2
  · intro sd hsd
    exact inv.snake_wf sd (List.mem_cons_of_mem _ hsd)
  · intro sd hsd
    exact inv.dir_eq sd (List.mem_cons_of_mem _ hsd)
  · exact (List.pairwise_cons.mp inv.noface).2

/-! ### The outer solver loop preserves the invariant -/

theorem SolveInv.initial {tiles : List Position} {minLen maxLen : Int}
    (hnd : tiles.Nodup) : SolveInv tiles minLen maxLen tiles [] := by
  refine
    { unused_nodup := hnd
      unused_sub := fun p hp => hp
      placed_sub := by simp
      cover := fun p hp => Or.inl hp
      disj := by simp
      pair_disj := List.Pairwise.nil
      snake_wf := by simp
      dir_eq := by simp
      noface := List.Pairwise.nil }

theorem solveLoop_sound {tiles : List Position} {minLen maxLen : Int}
    {r : Nat → ℚ} :
    ∀ {fuel : Nat} {unused : List Position}
      {placed : List (List Position × Option Direction)} {k : Nat}
      {snakes : List (List Position)} {k2 : Nat},
      solveLoop tiles minLen maxLen r fuel unused placed k =
        some (some snakes, k2) →
      SolveInv tiles minLen maxLen unused placed →
      (∀ n, r n < 1) → 1 ≤ minLen → minLen ≤ maxLen →
      ∃ placed2, snakes = (placed2.map Prod.fst).reverse ∧
        SolveInv tiles minLen maxLen [] placed2 := by
  intro fuel
  induction fuel with
  | zero =>
      intro unused placed k snakes k2 heq inv hr hmin hmax
      rw [solveLoop] at heq
      by_cases hemp : unused.isEmpty
      · rw [if_pos hemp] at heq
        simp only [Option.some.injEq, Prod.mk.injEq] at heq
        obtain ⟨heq1, rfl⟩ := heq
        subst heq1
        have hu : unused = [] := List.isEmpty_iff.mp hemp
        subst hu
        exact ⟨placed, rfl, inv⟩
      · rw [if_neg hemp] at heq
        simp at heq
  | succ fuel ih =>
      intro unused placed k snakes k2 heq inv hr hmin hmax
      rw [solveLoop] at heq
      by_cases hemp : unused.isEmpty
      · rw [if_pos hemp] at heq
        simp only [Option.some.injEq, Prod.mk.injEq] at heq
        obtain ⟨heq1, rfl⟩ := heq
        subst heq1
        have hu : unused = [] := List.isEmpty_iff.mp hemp
        subst hu
        exact ⟨placed, rfl, inv⟩
      · rw [if_neg hemp] at heq
        cases hsort : sortByDeg tiles unused with
        | nil =>
            rw [hsort] at heq
            simp at heq
        | cons start rest =>
            rw [hsort] at heq
            dsimp only at heq
            cases htry : tryFindSnake tiles
                (tiles.filter fun p => decide (p ∉ unused)) minLen maxLen r
                placed start 10 k with
            | none =>
                rw [htry] at heq
                simp at heq
            | some res =>
                obtain ⟨snk, kNew⟩ := res
                rw [htry] at heq
                cases snk with
                | none =>
                    dsimp only at heq
                    cases placed with
                    | nil => simp at heq
                    | cons lastd rest2 =>
                        obtain ⟨last, d⟩ := lastd
                        dsimp only at heq
                        exact ih heq inv.backtrack hr hmin hmax
                | some snake =>
                    dsimp only at heq
                    rw [foldl_erase_eq_diff] at heq
                    obtain ⟨⟨k0, k1, hgen⟩, hface⟩ := tryFindSnake_spec htry
                    obtain ⟨⟨ext, hext⟩, hmem, hnd, hch, hlen1, -⟩ :=
                      generateGreedySnake_spec hgen
                    have hstart : start ∈ unused := by
                      have hmem0 : start ∈ sortByDeg tiles unused := by
                        rw [hsort]
                        exact List.mem_cons_self _ _
                      exact mem_sortByDeg.mp hmem0
                    have hsub : ∀ p ∈ snake, p ∈ unused := by
                      intro p hp
                      rcases hmem p hp with rfl | ⟨htile, hnug⟩
                      · exact hstart
                      · by_contra hnu
                        exact hnug (List.mem_filter.mpr ⟨htile, by simpa using hnu⟩)
                    have hne : snake ≠ [] := by
                      rw [hext]
                      simp
                    have hlen2 := generateGreedySnake_len_le (hr k0) hmin hmax hgen
                    exact ih heq (inv.place hsub hnd hne hch hlen1 hlen2 hface)
                      hr hmin hmax

theorem genLoop_sound {tiles : List Position} {minLen maxLen : Int}
    {r : Nat → ℚ} {maxA : Nat} :
    ∀ {fuel attempt k : Nat} {snakes : List (List Position)} {a : Nat},
      genLoop tiles minLen maxLen r maxA fuel attempt k =
        some (some snakes, a) →
      tiles.Nodup → (∀ n, r n < 1) → 1 ≤ minLen → minLen ≤ maxLen →
      ∃ placed2, snakes = (placed2.map Prod.fst).reverse ∧
        SolveInv tiles minLen maxLen [] placed2 := by
  intro fuel
  induction fuel with
  | zero =>
      intro attempt k snakes a heq hnd hr hmin hmax
      simp [genLoop] at heq
  | succ fuel ih =>
      intro attempt k snakes a heq hnd hr hmin hmax
      rw [genLoop] at heq
      cases hs : solveWithGreedy tiles minLen maxLen r k 100 with
      | none =>
          rw [hs] at heq
          simp at heq
      | some res =>
          obtain ⟨sres, kNew⟩ := res
          rw [hs] at heq
          cases sres with
          | some s =>
              dsimp only at heq
              simp only [Option.some.injEq, Prod.mk.injEq] at heq
              obtain ⟨heq1, rfl⟩ := heq
              subst heq1
              unfold solveWithGreedy at hs
              exact solveLoop_sound hs (SolveInv.initial hnd) hr hmin hmax
          | none =>
              dsimp only at heq
              exact ih heq hnd hr hmin hmax

/-- Shared soundness helper: a successful run of the generator yields a
final placed stack satisfying the full solver invariant over the parsed
tile set. -/
theorem generateSnakesForShape_sound {ascii : String} {minLen maxLen : Int}
    {r : Nat → ℚ} {maxA : Nat} {snakes : List (List Position)} {a : Nat}
    (heq : generateSnakesForShape ascii minLen maxLen r maxA =
      some (some snakes, a))
    (hr : ∀ n, r n < 1) (hmin : 1 ≤ minLen) (hmax : minLen ≤ maxLen) :
    ∃ placed2, snakes = (placed2.map Prod.fst).reverse ∧
      SolveInv (parseShape ascii).tiles minLen maxLen [] placed2 := by
  unfold generateSnakesForShape at heq
  exact genLoop_sound heq (parseShape_tiles_nodup ascii) hr hmin hmax

/-! ### Claim C1: exact partition -/

/-- C1: for every shape text and every minLen/maxLen, whenever the solver
returns a successful result (snakes non-null from `generateSnakesForShape`),
the snakes' position sequences are pairwise disjoint and the union of all
snakes' positions equals exactly the set of tiles parsed from the shape
text.  The random source is any stream honouring the §4.2 contract
(values in [0,1)); lengths are as validated by the request schema
(1 ≤ minLen ≤ maxLen). -/
theorem C1_exact_partition {ascii : String} {minLen maxLen : Int}
    {r : Nat → ℚ} {maxA : Nat} {snakes : List (List Position)} {a : Nat}
    (hr : ∀ n, 0 ≤ r n ∧ r n < 1) (hmin : 1 ≤ minLen) (hmax : minLen ≤ maxLen)
    (heq : generateSnakesForShape ascii minLen maxLen r maxA =
      some (some snakes, a)) :
    snakes.Pairwise (fun s t => ∀ p ∈ s, p ∉ t) ∧
    ∀ p : Position, (∃ s ∈ snakes, p ∈ s) ↔ p ∈ (parseShape ascii).tiles := by
  obtain ⟨placed2, rfl, inv⟩ :=
    generateSnakesForShape_sound heq (fun n => (hr n).2) hmin hmax
  constructor
  · rw [List.pairwise_reverse, List.pairwise_map]
    exact List.Pairwise.imp (fun h p hpb hpa => h p hpa hpb) inv.pair_disj
  · intro p
    constructor
    · rintro ⟨s, hs, hps⟩
      rw [List.mem_reverse, List.mem_map] at hs
      obtain ⟨sd, hsd, rfl⟩ := hs
      exact inv.placed_sub sd hsd p hps
    · intro hp
      rcases inv.cover p hp with h | ⟨sd, hsd, hpsd⟩
      · simp at h
      · refine ⟨sd.1, ?_, hpsd⟩
        rw [List.mem_reverse, List.mem_map]
        exact ⟨sd, hsd, rfl⟩

unseal Rat.add Rat.mul Rat.sub Rat.inv in
theorem C1_exact_partition_witness :
    [[(⟨0, 0⟩ : Position), ⟨1, 0⟩]].Pairwise (fun s t => ∀ p ∈ s, p ∉ t) ∧
    ∀ p : Position, (∃ s ∈ [[(⟨0, 0⟩ : Position), ⟨1, 0⟩]], p ∈ s) ↔
      p ∈ (parseShape "##").tiles :=
  @C1_exact_partition "##" 2 2 (lcgStream 1) 20 [[⟨0, 0⟩, ⟨1, 0⟩]] 1
    (lcgStream_bounds (by decide)) (by decide) (by decide) (by decide)

/-! ### Claim C2: no two snakes in a solution face each other -/

/-- C2: for every successful result of the solver and every pair of distinct
snakes in it, the face-to-face predicate `snakesFaceEachOther` (applied with
the snakes' derived directions, in either order) evaluates to false. -/
theorem C2_no_facing {ascii : String} {minLen maxLen : Int}
    {r : Nat → ℚ} {maxA : Nat} {snakes : List (List Position)} {a : Nat}
    (hr : ∀ n, 0 ≤ r n ∧ r n < 1) (hmin : 1 ≤ minLen) (hmax : minLen ≤ maxLen)
    (heq : generateSnakesForShape ascii minLen maxLen r maxA =
      some (some snakes, a)) :
    snakes.Pairwise (fun s t =>
      snakesFaceEachOther s (getSnakeDirection s) t (getSnakeDirection t) = false ∧
      snakesFaceEachOther t (getSnakeDirection t) s (getSnakeDirection s) = false) := by
  obtain ⟨placed2, rfl, inv⟩ :=
    generateSnakesForShape_sound heq (fun n => (hr n).2) hmin hmax
  rw [List.pairwise_reverse, List.pairwise_map]
  refine List.Pairwise.imp_of_mem ?_ inv.noface
  intro sa sb ha hb hR
  have e1 := inv.dir_eq sa ha
  have e2 := inv.dir_eq sb hb
  rw [e1, e2] at hR
  exact ⟨hR.2, hR.1⟩

unseal Rat.add Rat.mul Rat.sub Rat.inv in
theorem C2_no_facing_witness :
    [[(⟨0, 0⟩ : Position), ⟨1, 0⟩], [⟨3, 0⟩, ⟨2, 0⟩]].Pairwise (fun s t =>
      snakesFaceEachOther s (getSnakeDirection s) t (getSnakeDirection t) = false ∧
      snakesFaceEachOther t (getSnakeDirection t) s (getSnakeDirection s) = false) :=
  @C2_no_facing "####" 2 2 (lcgStream 1) 20
    [[⟨0, 0⟩, ⟨1, 0⟩], [⟨3, 0⟩, ⟨2, 0⟩]] 1
    (lcgStream_bounds (by decide)) (by decide) (by decide) (by decide)

/-! ### Claim C5: every snake in a successful result is well-formed -/

/-- C5: for every snake in any successful result, its positions form a
non-repeating sequence, every consecutive pair of positions is 4-adjacent,
every position is a tile of the parsed shape, and its length lies in
[minLen, maxLen]. -/
theorem C5_snake_wellformed {ascii : String} {minLen maxLen : Int}
    {r : Nat → ℚ} {maxA : Nat} {snakes : List (List Position)} {a : Nat}
    (hr : ∀ n, 0 ≤ r n ∧ r n < 1) (hmin : 1 ≤ minLen) (hmax : minLen ≤ maxLen)
    (heq : generateSnakesForShape ascii minLen maxLen r maxA =
      some (some snakes, a)) :
    ∀ s ∈ snakes, s.Nodup ∧ List.Chain' isAdj s ∧
      (∀ p ∈ s, p ∈ (parseShape ascii).tiles) ∧
      minLen ≤ (s.length : Int) ∧ (s.length : Int) ≤ maxLen := by
  obtain ⟨placed2, rfl, inv⟩ :=
    generateSnakesForShape_sound heq (fun n => (hr n).2) hmin hmax
  intro s hs
  rw [List.mem_reverse, List.mem_map] at hs
  obtain ⟨sd, hsd, rfl⟩ := hs
  obtain ⟨h1, h2, h3, h4, h5⟩ := inv.snake_wf sd hsd
  exact ⟨h1, h3, fun p hp => inv.placed_sub sd hsd p hp, h4, h5⟩

unseal Rat.add Rat.mul Rat.sub Rat.inv in
theorem C5_snake_wellformed_witness :
    ([(⟨0, 0⟩ : Position), ⟨1, 0⟩]).Nodup ∧
    List.Chain' isAdj [(⟨0, 0⟩ : Position), ⟨1, 0⟩] ∧
    (∀ p ∈ [(⟨0, 0⟩ : Position), ⟨1, 0⟩], p ∈ (parseShape "##").tiles) ∧
    (2 : Int) ≤ (([(⟨0, 0⟩ : Position), ⟨1, 0⟩]).length : Int) ∧
    (([(⟨0, 0⟩ : Position), ⟨1, 0⟩]).length : Int) ≤ 2 :=
  @C5_snake_wellformed "##" 2 2 (lcgStream 1) 20 [[⟨0, 0⟩, ⟨1, 0⟩]] 1
    (lcgStream_bounds (by decide)) (by decide) (by decide) (by decide)
    [⟨0, 0⟩, ⟨1, 0⟩] (by decide)

/-! ### Claim C3: the 4-cell row with minLen = maxLen = 2 -/

unseal Rat.add Rat.mul Rat.sub Rat.inv in
/-- C3 counterexample: the claim asserts that `generateSnakesForShape`
fails (snakes null) on the single row of 4 marked cells with
minLen = maxLen = 2 for every seed.  At seed 1 the run completes without
error and returns non-null snakes, refuting the claim. -/
theorem C3_counterexample :
    Option.map (fun res => res.1.isSome)
      (generateSnakesForShape "####" 2 2 (lcgStream 1) 20) = some true := by
  decide

unseal Rat.add Rat.mul Rat.sub Rat.inv in
/-- C3 amended: on the 4-cell row with minLen = maxLen = 2 the solver can
succeed (it does at seed 1, on the first attempt): it returns the
back-to-back partition `[0,1]` (facing left) and `[3,2]` (facing right),
whose heads face away from each other, so the facing constraint is
satisfied — contrary to the scenario's claim that every admissible pairing
forces the heads to face each other. -/
theorem C3_amended_success :
    generateSnakesForShape "####" 2 2 (lcgStream 1) 20 =
      some (some [[⟨0, 0⟩, ⟨1, 0⟩], [⟨3, 0⟩, ⟨2, 0⟩]], 1) ∧
    getSnakeDirection [⟨0, 0⟩, ⟨1, 0⟩] = some Direction.left ∧
    getSnakeDirection [⟨3, 0⟩, ⟨2, 0⟩] = some Direction.right ∧
    snakesFaceEachOther [⟨0, 0⟩, ⟨1, 0⟩] (some Direction.left)
      [⟨3, 0⟩, ⟨2, 0⟩] (some Direction.right) = false ∧
    snakesFaceEachOther [⟨3, 0⟩, ⟨2, 0⟩] (some Direction.right)
      [⟨0, 0⟩, ⟨1, 0⟩] (some Direction.left) = false := by
  decide

/-! ### Claim C4: the candidate generator is not an enumerator -/

theorem chainAdjB_iff (l : List Position) :
    chainAdjB l = true ↔ List.Chain' isAdj l := by
  induction l with
  | nil => simp [chainAdjB]
  | cons p rest ih =>
      cases rest with
      | nil => simp [chainAdjB]
      | cons q rest2 =>
          rw [chainAdjB, List.chain'_cons, Bool.and_eq_true, decide_eq_true_eq]
          exact and_congr Iff.rfl ih

unseal Rat.add Rat.mul Rat.sub Rat.inv in
/-- C4 counterexample: in the 2×2 square both `[(0,0),(1,0)]` and
`[(0,0),(0,1)]` are valid candidate paths from (0,0) in the spec's sense,
but a single invocation of `generateGreedySnake` returns a single path
(`Option`), so it cannot produce every such path: the claim's universal
statement fails at this concrete input. -/
theorem C4_counterexample :
    specValidPath ⟨0, 0⟩ (parseShape "##\n##").tiles [] 2 2
      [⟨0, 0⟩, ⟨1, 0⟩] = true ∧
    specValidPath ⟨0, 0⟩ (parseShape "##\n##").tiles [] 2 2
      [⟨0, 0⟩, ⟨0, 1⟩] = true ∧
    ¬ ∀ p : List Position,
        specValidPath ⟨0, 0⟩ (parseShape "##\n##").tiles [] 2 2 p = true →
        ∃ kEnd, generateGreedySnake ⟨0, 0⟩ (parseShape "##\n##").tiles [] 2 2
          (lcgStream 1) 0 = some (some p, kEnd) := by
  refine ⟨by decide, by decide, ?_⟩
  intro hall
  obtain ⟨k1, e1⟩ := hall [⟨0, 0⟩, ⟨1, 0⟩] (by decide)
  obtain ⟨k2, e2⟩ := hall [⟨0, 0⟩, ⟨0, 1⟩] (by decide)
  rw [e1] at e2
  simp at e2

/-- C4 amended: a single invocation of `generateGreedySnake` produces at
most one candidate path, not an enumeration; whenever it returns a path
and is called as the solver calls it (start a free tile of the shape,
random values in [0,1), 1 ≤ minLen ≤ maxLen), that path is one valid path
in the spec's §4.5 sense. -/
theorem C4_amended_single_sound {start : Position}
    {tiles usedGlobal : List Position} {minLen maxLen : Int} {r : Nat → ℚ}
    {k : Nat} {p : List Position} {k2 : Nat}
    (hr : ∀ n, 0 ≤ r n ∧ r n < 1) (hmin : 1 ≤ minLen) (hmax : minLen ≤ maxLen)
    (hstile : start ∈ tiles) (hsfree : start ∉ usedGlobal)
    (heq : generateGreedySnake start tiles usedGlobal minLen maxLen r k =
      some (some p, k2)) :
    specValidPath start tiles usedGlobal minLen maxLen p = true := by
  obtain ⟨⟨ext, hext⟩, hmem, hnd, hch, hlen1, -⟩ := generateGreedySnake_spec heq
  have hlen2 := generateGreedySnake_len_le (hr k).2 hmin hmax heq
  unfold specValidPath
  simp only [Bool.and_eq_true, decide_eq_true_eq]
  refine ⟨⟨⟨⟨⟨?_, hnd⟩, ?_⟩, ?_⟩, hlen1⟩, hlen2⟩
  · rw [hext]
    rfl
  · exact (chainAdjB_iff p).mpr hch
  · intro q hq
    rcases hmem q hq with rfl | ⟨h1, h2⟩
    · exact ⟨hstile, hsfree⟩
    · exact ⟨h1, h2⟩

unseal Rat.add Rat.mul Rat.sub Rat.inv in
theorem C4_amended_single_sound_witness :
    specValidPath ⟨0, 0⟩ (parseShape "##\n##").tiles [] 2 2
      [⟨0, 0⟩, ⟨0, 1⟩] = true :=
  @C4_amended_single_sound ⟨0, 0⟩ (parseShape "##\n##").tiles [] 2 2
    (lcgStream 1) 0 [⟨0, 0⟩, ⟨0, 1⟩] 2
    (lcgStream_bounds (by decide)) (by decide) (by decide) (by decide)
    (by decide) (by decide)

/-! ### Claim C6: determinism under a fixed seed -/

/-- C6: two runs of `generateSnakesForShape` with the same shape text, the
same minLen/maxLen and pointwise-equal random streams — in particular two
`SeededRandom` instances built from the same supplied integer seed —
return identical results: same snakes, same attempt count.  (All other
state is request-scoped, so the result is a pure function of these
inputs.) -/
theorem C6_determinism (ascii : String) (minLen maxLen : Int)
    (r1 r2 : Nat → ℚ) (maxA : Nat) (h : ∀ n, r1 n = r2 n) :
    generateSnakesForShape ascii minLen maxLen r1 maxA =
      generateSnakesForShape ascii minLen maxLen r2 maxA := by
  have hr : r1 = r2 := funext h
  rw [hr]

theorem C6_determinism_witness :
    generateSnakesForShape "##" 2 2 (lcgStream 7) 20 =
      generateSnakesForShape "##" 2 2 (lcgStream 7) 20 :=
  C6_determinism "##" 2 2 (lcgStream 7) (lcgStream 7) 20 (fun _ => rfl)

/-! ### Claim C7: range of the seeded random stream -/

unseal Rat.add Rat.mul Rat.sub Rat.inv in
/-- C7 counterexample: for the caller-supplied seed −6 the very first value
of `SeededRandom.next()` is −6509/233280 < 0 (JS `%` keeps the sign of the
dividend), so the stream is not contained in [0,1). -/
theorem C7_counterexample : lcgStream (-6) 0 < 0 := by decide

/-- C7 amended: for every *nonnegative* caller-supplied integer seed and
every position in the stream, `next()` returns a value in [0,1). -/
theorem C7_seeded_range (seed : Int) (hseed : 0 ≤ seed) (n : Nat) :
    0 ≤ lcgStream seed n ∧ lcgStream seed n < 1 :=
  lcgStream_bounds hseed n

theorem C7_seeded_range_witness :
    (0 : Int) ≤ 3 ∧ (0 ≤ lcgStream 3 5 ∧ lcgStream 3 5 < 1) :=
  ⟨by decide, C7_seeded_range 3 (by decide) 5⟩

/-! ### Claim C9: most-constrained start-cell selection -/

/-- C9: every time the solver starts a new snake it takes the head of
`sortByDeg tiles unused` (see `solveLoop`); that head is an unplaced tile
whose degree (`countNeighbors` within the full tile set) is minimal among
all unplaced tiles, and — the sort and the JS set order being
deterministic — the choice is a pure function of the tile set and the
unused set, hence deterministic for a fixed input and seed. -/
theorem C9_min_degree_start (tiles unused : List Position)
    (h : unused ≠ []) :
    ∃ start rest, sortByDeg tiles unused = start :: rest ∧ start ∈ unused ∧
      ∀ q ∈ unused, countNeighbors start tiles ≤ countNeighbors q tiles := by
  cases hs : sortByDeg tiles unused with
  | nil =>
      exfalso
      have hlen := sortByDeg_length tiles unused
      rw [hs] at hlen
      simp only [List.length_nil] at hlen
      exact h (List.length_eq_zero.mp hlen.symm)
  | cons start rest =>
      refine ⟨start, rest, rfl, ?_, ?_⟩
      · have hmem : start ∈ sortByDeg tiles unused := by
          rw [hs]
          exact List.mem_cons_self _ _
        exact mem_sortByDeg.mp hmem
      · intro q hq
        have hq2 : q ∈ sortByDeg tiles unused := mem_sortByDeg.mpr hq
        rw [hs] at hq2
        rcases List.mem_cons.mp hq2 with rfl | hq3
        · exact le_refl _
        · have hsorted := sortByDeg_sorted tiles unused
          rw [hs] at hsorted
          exact List.rel_of_sorted_cons hsorted q hq3

theorem C9_min_degree_start_witness :
    ([⟨2, 0⟩, ⟨3, 0⟩] : List Position) ≠ [] ∧
    ∃ start rest,
      sortByDeg (parseShape "####").tiles [⟨2, 0⟩, ⟨3, 0⟩] = start :: rest ∧
      start ∈ ([⟨2, 0⟩, ⟨3, 0⟩] : List Position) ∧
      ∀ q ∈ ([⟨2, 0⟩, ⟨3, 0⟩] : List Position),
        countNeighbors start (parseShape "####").tiles ≤
          countNeighbors q (parseShape "####").tiles :=
  ⟨by decide,
    C9_min_degree_start (parseShape "####").tiles [⟨2, 0⟩, ⟨3, 0⟩] (by decide)⟩

/-! ### Claim C10: the JSON conversion emits a constant startPos -/

/-- C10: every `SnakeShape` emitted by `snakesToJSON` has `startPos` equal
to the constant position (0,0), regardless of the snake's actual head
position (the head is recoverable only as the first element of
`positions`). -/
theorem C10_startPos_constant (snakes : List (List Position))
    (sh : SnakeShape) (hsh : sh ∈ snakesToJSON snakes) :
    sh.startPos = ⟨0, 0⟩ := by
  unfold snakesToJSON at hsh
  rw [List.mem_map] at hsh
  obtain ⟨s, hs, rfl⟩ := hsh
  rfl

theorem C10_startPos_constant_witness :
    (⟨"Snake1", ⟨0, 0⟩, none, none, [⟨0, 0⟩]⟩ : SnakeShape) ∈
      snakesToJSON [[⟨0, 0⟩]] ∧
    (⟨"Snake1", ⟨0, 0⟩, none, none, [⟨0, 0⟩]⟩ : SnakeShape).startPos = ⟨0, 0⟩ :=
  ⟨by decide, C10_startPos_constant [[⟨0, 0⟩]] _ (by decide)⟩

/-! ### Claim C8: retry accounting -/

theorem genLoop_attempts {tiles : List Position} {minLen maxLen : Int}
    {r : Nat → ℚ} {maxA : Nat} :
    ∀ {fuel attempt k : Nat} {res : Option (List (List Position))} {a : Nat},
      genLoop tiles minLen maxLen r maxA fuel attempt k = some (res, a) →
      solveCalls tiles minLen maxLen r (attempt - 1) = some k →
      1 ≤ attempt → attempt - 1 + fuel = maxA →
      (res = none → a = maxA ∧
        ∃ kf, solveCalls tiles minLen maxLen r maxA = some kf) ∧
      ∀ s, res = some s → attempt ≤ a ∧ a ≤ maxA ∧
        ∃ kb ke, solveCalls tiles minLen maxLen r (a - 1) = some kb ∧
          solveWithGreedy tiles minLen maxLen r kb 100 = some (some s, ke) := by
  intro fuel
  induction fuel with
  | zero =>
      intro attempt k res a heq hk h1 hfa
      simp only [genLoop, Option.some.injEq, Prod.mk.injEq] at heq
      obtain ⟨rfl, rfl⟩ := heq
      refine ⟨fun _ => ⟨rfl, ?_⟩, fun s hs => absurd hs (by simp)⟩
      rw [show maxA = attempt - 1 by omega]
      exact ⟨k, hk⟩
  | succ fuel ih =>
      intro attempt k res a heq hk h1 hfa
      rw [genLoop] at heq
      cases hs : solveWithGreedy tiles minLen maxLen r k 100 with
      | none =>
          rw [hs] at heq
          simp at heq
      | some out =>
          obtain ⟨sres, kNew⟩ := out
          rw [hs] at heq
          cases sres with
          | some s =>
              dsimp only at heq
              simp only [Option.some.injEq, Prod.mk.injEq] at heq
              obtain ⟨rfl, rfl⟩ := heq
              refine ⟨fun hno => absurd hno (by simp), fun s2 hs2 => ?_⟩
              rw [Option.some.injEq] at hs2
              subst hs2
              exact ⟨le_refl _, by omega, k, kNew, hk, hs⟩
          | none =>
              dsimp only at heq
              have hk2 : solveCalls tiles minLen maxLen r attempt = some kNew := by
                rw [show attempt = (attempt - 1) + 1 by omega, solveCalls, hk]
                dsimp only
                rw [hs]
              have hk3 : solveCalls tiles minLen maxLen r (attempt + 1 - 1) =
                  some kNew := by
                simpa using hk2
              obtain ⟨hfail, hsucc⟩ := ih heq hk3 (by omega) (by omega)
              refine ⟨hfail, fun s hs2 => ?_⟩
              obtain ⟨hle, hmax, rest⟩ := hsucc s hs2
              exact ⟨by omega, hmax, rest⟩

/-- C8: `generateSnakesForShape` invokes the single-attempt solver at most
`maxAttempts` times: on success it returns the solution of the first
successful attempt together with that attempt's 1-based index `a`
(`solveCalls … (a-1)` certifies that the preceding `a-1` solver calls all
ran and failed, and the `a`-th call returns exactly the reported snakes);
on failure it returns snakes null with the attempts field equal to
`maxAttempts`, after `maxAttempts` failed solver calls. -/
theorem C8_retry_accounting {ascii : String} {minLen maxLen : Int}
    {r : Nat → ℚ} {maxA : Nat} {res : Option (List (List Position))} {a : Nat}
    (heq : generateSnakesForShape ascii minLen maxLen r maxA = some (res, a)) :
    (res = none → a = maxA ∧
      ∃ kf, solveCalls (parseShape ascii).tiles minLen maxLen r maxA = some kf) ∧
    ∀ s, res = some s → 1 ≤ a ∧ a ≤ maxA ∧
      ∃ kb ke, solveCalls (parseShape ascii).tiles minLen maxLen r (a - 1) =
          some kb ∧
        solveWithGreedy (parseShape ascii).tiles minLen maxLen r kb 100 =
          some (some s, ke) := by
  unfold generateSnakesForShape at heq
  have h := genLoop_attempts heq rfl (le_refl 1) (by omega)
  refine ⟨h.1, fun s hs => ?_⟩
  obtain ⟨hle, hmax, rest⟩ := h.2 s hs
  exact ⟨hle, hmax, rest⟩

unseal Rat.add Rat.mul Rat.sub Rat.inv in
theorem C8_retry_accounting_witness :
    1 ≤ 1 ∧ 1 ≤ 20 ∧
    ∃ kb ke, solveCalls (parseShape "##").tiles 2 2 (lcgStream 1) (1 - 1) =
        some kb ∧
      solveWithGreedy (parseShape "##").tiles 2 2 (lcgStream 1) kb 100 =
        some (some [[⟨0, 0⟩, ⟨1, 0⟩]], ke) :=
  (@C8_retry_accounting "##" 2 2 (lcgStream 1) 20
    (some [[⟨0, 0⟩, ⟨1, 0⟩]]) 1 (by decide)).2 _ rfl
